import Mathlib

/-!
Verification development for the per-request execution context of the
Cutelyst dispatch core (`src/Cutelyst/context.cpp`).

The context's observable operations (`error`, `errors`, `setState`,
`execute`, `detach`, `forward`, `detachAsync`, `attachAsync`, `finalize`,
and the `uriFor` family) are embedded as executable Lean functions over an
explicit state record `Ctx`.  Components (the `Cutelyst::Component`
objects whose virtual `execute(Context*)` is invoked by dispatch) are
modelled as straight-line programs over the context API, so theorems can
quantify over arbitrary component behaviour expressible through that API.

Machine integers: `asyncDetached` is a C++ `int` that the code can drive
negative, so it is an `Int` here; sizes and cursors are `Nat` (the code
only ever compares/increments them in the non-negative range shown).

Ghost fields (`warnings`, `engineFinalizeCount`, `afterDispatchCount`,
`execTrace`, `resumeLog`) record externally observable events (log
output, transport finalization, signal emission, component invocation)
that the C++ performs by side effect; they are never read by the
embedded control flow, mirroring the source.
-/

namespace CutelystCtx

mutual

/-- A dispatchable component: its `name()` and `reverse()` strings, the
boolean its `execute(Context*)` returns, and the sequence of context
operations its body performs (the body models the arbitrary calls a
`Cutelyst::Component` subclass can make back into the `Context` API). -/
inductive Component : Type where
  | mk (name : String) (rev : String) (ret : Bool) (body : Prog) : Component

inductive Prog : Type where
  | nil : Prog
  | cons (op : Op) (rest : Prog) : Prog

inductive Op : Type where
  | exec (c : Component) : Op
  | errorOp (msg : String) : Op
  | setStateOp (b : Bool) : Op
  | finalizeOp : Op
  | detachAsyncOp : Op
  | attachAsyncOp : Op
  | detachNoneOp : Op
  | detachToOp (c : Component) : Op

end

instance : Inhabited Component := ⟨.mk "" "" true .nil⟩

/-- Accessor for the component's `name()`. -/
def Component.name : Component → String
  | .mk n _ _ _ => n

/-- Accessor for the component's `reverse()` (canonical path). -/
def Component.rev : Component → String
  | .mk _ r _ _ => r

/-- The boolean the component's `execute(Context*)` returns. -/
def Component.ret : Component → Bool
  | .mk _ _ r _ => r

/-- The sequence of context operations the component's body performs. -/
def Component.body : Component → Prog
  | .mk _ _ _ b => b

/-- The private state of one `Cutelyst::Context` (`ContextPrivate`)
together with the `EngineRequest` status bits it reads and writes, plus
ghost observation fields. -/
structure Ctx : Type where
  /-- `ContextPrivate::error` (a `QStringList` of error messages). -/
  error : List String
  /-- `ContextPrivate::state`, the boolean success flag. -/
  state : Bool
  /-- `ContextPrivate::stack` (`QStack<Component *>`), top at the head. -/
  stack : List Component
  /-- `ContextPrivate::detached`. -/
  detached : Bool
  /-- `ContextPrivate::asyncDetached`, a C++ `int` reference count. -/
  asyncDetached : Int
  /-- `ContextPrivate::pendingAsync`, the queue of actions to replay. -/
  pendingAsync : List Component
  /-- `ContextPrivate::asyncAction`, the resumption cursor. -/
  asyncAction : Nat
  /-- The `EngineRequest::Async` status bit. -/
  statusAsync : Bool
  /-- The `EngineRequest::Finalized` status bit. -/
  statusFinalized : Bool
  /-- Whether `ContextPrivate::stats` is non-null. -/
  stats : Bool
  /-- The process-wide recursion limit (`static int recursion`, default
  1000, overridable from the environment at first use). -/
  recursionLimit : Nat
  /-- Ghost: number of times `engineRequest->finalize()` handed the
  response to the transport. -/
  engineFinalizeCount : Nat
  /-- Ghost: emissions of the `Application::afterDispatch` signal. -/
  afterDispatchCount : Nat
  /-- Ghost: `qCWarning` messages in emission order. -/
  warnings : List String
  /-- Ghost: every component whose `execute(Context*)` was invoked, in
  invocation order. -/
  execTrace : List Component
  /-- Ghost: each iteration of the `attachAsync` resumption loop records
  the cursor value it consumed and the pending action it executed. -/
  resumeLog : List (Nat × Component)

/-- The default recursion limit (`static int recursion = ... : 1000`). -/
def defaultRecursionLimit : Nat := 1000

/-- `void Context::error(const QString &error)`: an empty argument
clears the stored list, a non-empty one is appended (and logged). -/
def ctxError (c : Ctx) (msg : String) : Ctx :=
  if msg = "" then { c with error := [] }
  else { c with error := c.error ++ [msg] }

/-- `QStringList Context::errors() const`: returns the stored list. -/
def errors (c : Ctx) : List String :=
  c.error

/-- `void Context::setState(bool state)`. -/
def setStateF (c : Ctx) (b : Bool) : Ctx :=
  { c with state := b }

/-- `void Context::detachAsync()`: increments `asyncDetached` and sets
the `EngineRequest::Async` status bit. -/
def detachAsync (c : Ctx) : Ctx :=
  { c with asyncDetached := c.asyncDetached + 1, statusAsync := true }

/-- Modelled from the spec: `EngineRequest::finalize()` is outside the
supplied excerpt; per the spec it is "a `finalize()` operation the core
calls exactly once to hand the completed response back to the
transport", and `finalized` "transitions false to true exactly once", so
it records one hand-off and sets the `Finalized` status bit. -/
def engineFinalize (c : Ctx) : Ctx :=
  { c with engineFinalizeCount := c.engineFinalizeCount + 1, statusFinalized := true }

/-- The `qCWarning` text of `Context::finalize` on a finalized request. -/
def finalizeWarning : String :=
  "Trying to finalize a finalized request! Skipping..."

/-- The `qCWarning` text of `Context::attachAsync` on a finalized request. -/
def attachWarning : String :=
  "Trying to async attach to a finalized request! Skipping..."

/-- `void Context::finalize()`: warns and returns if the request is
already finalized; otherwise reports/destroys the stats object when
present and calls `engineRequest->finalize()`. -/
def finalize (c : Ctx) : Ctx :=
  if c.statusFinalized then
    { c with warnings := c.warnings ++ [finalizeWarning] }
  else
    engineFinalize (if c.stats then { c with stats := false } else c)

/-- One iteration entry of the `attachAsync` pending loop:
`Action *action = d->pendingAsync[d->asyncAction++];` — the cursor is
advanced past the entry about to run, and the ghost log records the
consumed cursor value with that entry. -/
def resumeEnter (c : Ctx) : Ctx :=
  { c with asyncAction := c.asyncAction + 1,
           resumeLog := c.resumeLog ++
             [(c.asyncAction, c.pendingAsync.getD c.asyncAction default)] }

/-- The message `Context::execute` records on deep recursion:
`"Deep recursion detected (stack size %1) calling %2, %3"` with the
stack size, `code->reverse()` and `code->name()` substituted. -/
def recursionMsg (n : Nat) (code : Component) : String :=
  "Deep recursion detected (stack size " ++ toString n ++ ") calling "
    ++ code.rev ++ ", " ++ code.name

mutual

/-- `bool Context::execute(Component *code)`: if the stack has reached
the recursion limit, records the error, sets `state = false` and fails
without pushing or invoking `code`; otherwise pushes `code`, invokes its
body (the profiling hooks only talk to the external `Stats` collaborator
and change no modelled state), pops, and returns the component's result.
`fuel` bounds the total number of interpreter steps; `none` means the
bound was exhausted. -/
def execute : Nat → Ctx → Component → Option (Ctx × Bool)
  | 0, _, _ => none
  | fuel + 1, c, code =>
    if c.recursionLimit ≤ c.stack.length then
      some (setStateF (ctxError c (recursionMsg c.stack.length code)) false, false)
    else
      (runProg fuel
          { c with stack := code :: c.stack, execTrace := c.execTrace ++ [code] }
          code.body).map
        fun c2 => ({ c2 with stack := c2.stack.tail }, code.ret)

/-- Runs the remaining operations of a component body in order. -/
def runProg : Nat → Ctx → Prog → Option Ctx
  | 0, _, _ => none
  | _ + 1, c, .nil => some c
  | fuel + 1, c, .cons op rest =>
    (applyOp fuel c op).bind fun c1 => runProg fuel c1 rest

/-- One call a component body makes back into the `Context` API.
`detachToOp`/`detachNoneOp` are the two branches of `Context::detach`;
forwarding through the dispatcher is modelled from the spec as running
the target action (see `dispForward`). -/
def applyOp : Nat → Ctx → Op → Option Ctx
  | 0, _, _ => none
  | fuel + 1, c, .exec comp => (execute fuel c comp).map Prod.fst
  | _ + 1, c, .errorOp msg => some (ctxError c msg)
  | _ + 1, c, .setStateOp b => some (setStateF c b)
  | _ + 1, c, .finalizeOp => some (finalize c)
  | _ + 1, c, .detachAsyncOp => some (detachAsync c)
  | fuel + 1, c, .attachAsyncOp => attachAsync fuel c
  | _ + 1, c, .detachNoneOp => some { c with detached := true }
  | fuel + 1, c, .detachToOp comp => (execute fuel c comp).map Prod.fst

/-- `void Context::attachAsync()`: decrements `asyncDetached` and
returns if the result is non-zero; warns and returns if the request is
already finalized; otherwise runs the pending-action loop and, unless
the loop returned because of a re-detach, emits `afterDispatch` and
finalizes when the `Async` status bit is set. -/
def attachAsync : Nat → Ctx → Option Ctx
  | 0, _ => none
  | fuel + 1, c =>
    let c1 := { c with asyncDetached := c.asyncDetached - 1 }
    if c1.asyncDetached ≠ 0 then some c1
    else if c1.statusFinalized then
      some { c1 with warnings := c1.warnings ++ [attachWarning] }
    else
      (resumeLoop fuel c1).map fun out =>
        if out.2 then out.1
        else if out.1.statusAsync then
          finalize { out.1 with afterDispatchCount := out.1.afterDispatchCount + 1 }
        else out.1

/-- The `while (d->asyncAction < d->pendingAsync.size())` loop of
`Context::attachAsync`.  The returned boolean is `true` exactly when the
loop exited through `return` (a pending action re-detached), `false`
when it exited through `break` (an action failed) or by exhausting the
queue. -/
def resumeLoop : Nat → Ctx → Option (Ctx × Bool)
  | 0, _ => none
  | fuel + 1, c =>
    if c.asyncAction < c.pendingAsync.length then
      (execute fuel (resumeEnter c) (c.pendingAsync.getD c.asyncAction default)).bind
        fun out =>
          if out.2 then
            if out.1.asyncDetached ≠ 0 then some (out.1, true)
            else resumeLoop fuel out.1
          else some (out.1, false)
    else some (c, false)

end

/-- Modelled from the spec: `Dispatcher::forward(Context *, Component *)`
is outside the supplied excerpt; per the spec it "delegates immediately
to the Resolver to run another action as part of the current request
cycle, without altering `detached`/`asyncDepth` bookkeeping itself" and
"returns the target's success result", so it runs the target component
through the context. -/
def dispForward (fuel : Nat) (c : Ctx) (comp : Component) : Option (Ctx × Bool) :=
  execute fuel c comp

/-- `bool Context::forward(Component *action)`: delegates to the
dispatcher. -/
def forward (fuel : Nat) (c : Ctx) (comp : Component) : Option (Ctx × Bool) :=
  dispForward fuel c comp

/-- `void Context::detach(Action *action)`: with a non-null action,
forwards to it through the dispatcher (discarding the result); with no
action, sets `detached = true`. -/
def detach (fuel : Nat) (c : Ctx) (action : Option Component) : Option Ctx :=
  match action with
  | some a => (dispForward fuel c a).map Prod.fst
  | none => some { c with detached := true }

mutual

/-- `true` when no operation of the component's body (recursively) is a
`Context::error` call with an empty argument (the clearing form). -/
def Component.okErr : Component → Bool
  | .mk _ _ _ b => b.okErr

/-- `Prog.okErr`: every operation of the program satisfies `Op.okErr`. -/
def Prog.okErr : Prog → Bool
  | .nil => true
  | .cons op rest => op.okErr && rest.okErr

/-- `Op.okErr`: the operation is not an empty-argument `error` call. -/
def Op.okErr : Op → Bool
  | .exec c => c.okErr
  | .errorOp msg => msg != ""
  | .detachToOp c => c.okErr
  | _ => true

end

/-- All queued pending actions avoid the clearing form of `error`. -/
def pendingOk (c : Ctx) : Prop :=
  ∀ a ∈ c.pendingAsync, a.okErr = true

/-! ### The queue/cursor/log/stack invariant

`stepInv c c'` relates the context before and after any completed run of
an embedded operation: the pending queue is never mutated, the cursor
only moves forward, the resumption log is extended by exactly the
consecutive cursor positions the loop consumed (each paired with the
pending action at that position), and the execution stack is restored
(push/pop strictly paired). -/

def stepInv (c c' : Ctx) : Prop :=
  c'.pendingAsync = c.pendingAsync ∧
  c.asyncAction ≤ c'.asyncAction ∧
  c'.resumeLog = c.resumeLog ++
    (List.range' c.asyncAction (c'.asyncAction - c.asyncAction)).map
      (fun k => (k, c.pendingAsync.getD k default)) ∧
  c'.stack = c.stack

/-! ### URI building (`Context::uriFor` and the `Action*` overload)

`QUrl` is modelled by the parts `uriFor` touches: the authority part
(scheme/host/port, copied unchanged from the request URI), the decoded
path, and the query.  `uri.setQuery(query)` with an empty `QUrlQuery`
leaves the URL without a query component (no trailing question mark),
modelled as `none`. -/

structure Url : Type where
  /-- Scheme, host and port, preserved from the request URI. -/
  authority : String
  path : String
  /-- Query items in final visible order; `none` means no query part. -/
  query : Option (List (String × String))
deriving DecidableEq

/-- A default-constructed, empty/invalid `QUrl`. -/
def emptyUrl : Url :=
  { authority := "", path := "", query := none }

/-- A `Cutelyst::Action` as seen by `uriFor`: only its declared number
of required captures is consulted here. -/
structure Action : Type where
  numberOfCaptures : Nat
deriving DecidableEq

/-- What `uriFor` reads from the context: the request URI, the current
action's controller namespace (`d->action->controller()->ns()`, never
with a leading slash), and the current action (`d->action`, the default
for the `Action*` overload). -/
structure UriEnv : Type where
  requestUri : Url
  controllerNs : String
  currentAction : Action

/-- Modelled from the spec: the Resolver ("dispatcher") is an external
collaborator specified only at its interface; `expandAction` normalizes
chained/aliased actions and `uriForAction` returns the canonical path
for an action given its captures, with the empty string meaning the
action cannot be resolved.  Theorems quantify over arbitrary resolvers. -/
structure Dispatcher : Type where
  expandAction : Option Action → Action
  uriForAction : Action → List String → String

/-- Lexicographic `QString::operator<` on the characters of the two
strings (Qt compares code units; identical to code-point order for the
material here). -/
def qcharsLess : List Char → List Char → Bool
  | [], [] => false
  | [], _ :: _ => true
  | _ :: _, [] => false
  | x :: xs, y :: ys =>
    if x < y then true else if y < x then false else qcharsLess xs ys

/-- `QString` comparison used for `QMap` key ordering. -/
def qstringLess (a b : String) : Bool :=
  qcharsLess a.data b.data

/-- `ParamsMultiMap` is Qt's ordered multi-map of `QString` keys/values
(`QMap`-family): entries iterate in ascending key order, and values
sharing a key iterate most-recently-inserted first.  The model keeps the
entry list in that iteration order; `pmInsert` inserts a new entry
before the first entry whose key is not less than the new key. -/
def pmInsert (k v : String) : List (String × String) → List (String × String)
  | [] => [(k, v)]
  | (k1, v1) :: rest =>
    if qstringLess k1 k then (k1, v1) :: pmInsert k v rest
    else (k, v) :: (k1, v1) :: rest

/-- Builds a `ParamsMultiMap` from entries in caller insertion order. -/
def pmFromList (l : List (String × String)) : List (String × String) :=
  l.foldl (fun acc kv => pmInsert kv.1 kv.2 acc) []

/-- The query-building loop of `Context::uriFor`: walks the map from
`constEnd()` backwards to `constBegin()`, appending each item with
`QUrlQuery::addQueryItem` (which appends at the back), so the first item
appended is the last map entry. -/
def buildQuery : List (String × String) → List (String × String)
  | [] => []
  | kv :: rest => buildQuery rest ++ [kv]

/-- `_path.startsWith(QLatin1Char('/'))`: whether the first character is
a slash. -/
def startsWithSlash (s : String) : Bool :=
  match s.data with
  | [] => false
  | ch :: _ => ch = '/'

/-- `QUrl Context::uriFor(const QString &path, const QStringList &args,
const ParamsMultiMap &queryValues) const`: derives the path from the
controller namespace when empty, appends the args with `/` (avoiding a
doubled separator after a bare `/`), forces a leading slash, and builds
the query by backwards iteration, skipping the query component entirely
when `queryValues` is empty. -/
def uriFor (env : UriEnv) (path : String) (args : List String)
    (queryValues : List (String × String)) : Url :=
  let uri := env.requestUri
  let path1 := if path = "" then env.controllerNs else path
  let path2 :=
    if args ≠ [] then
      if path1 = "/" then path1 ++ String.intercalate "/" args
      else path1 ++ "/" ++ String.intercalate "/" args
    else path1
  let path3 := if startsWithSlash path2 then path2 else "/" ++ path2
  let query := if queryValues.isEmpty then [] else buildQuery queryValues
  { uri with path := path3,
             query := if query.isEmpty then none else some query }

/-- The argument-to-capture moving loop of the `Action*` overload:
`while (localCaptures.size() < expandedAction->numberOfCaptures()
&& localArgs.size()) localCaptures.append(localArgs.takeFirst());`. -/
def moveCaptures (n : Nat) : List String → List String → List String × List String
  | captures, [] => (captures, [])
  | captures, a :: rest =>
    if captures.length < n then moveCaptures n (captures ++ [a]) rest
    else (captures, a :: rest)

/-- `QUrl Context::uriFor(Action *action, const QStringList &captures,
const QStringList &args, const ParamsMultiMap &queryValues) const`: the
`Action*` overload.  Note the source expands the raw `action` argument
(possibly null) but resolves the path for `localAction` (defaulted to
the current action). -/
def uriForOnAction (env : UriEnv) (d : Dispatcher) (action : Option Action)
    (captures args : List String) (queryValues : List (String × String)) : Url :=
  let localAction := action.getD env.currentAction
  let expandedAction := d.expandAction action
  let moved :=
    if 0 < expandedAction.numberOfCaptures then
      moveCaptures expandedAction.numberOfCaptures captures args
    else
      ([], captures ++ args)
  let path := d.uriForAction localAction moved.1
  if path = "" then emptyUrl
  else uriFor env path moved.2 queryValues

/-! ### Concrete fixtures for witnesses and counterexamples -/

/-- A freshly created request context. -/
def baseCtx : Ctx :=
  { error := [], state := true, stack := [], detached := false,
    asyncDetached := 0, pendingAsync := [], asyncAction := 0,
    statusAsync := false, statusFinalized := false, stats := false,
    recursionLimit := defaultRecursionLimit,
    engineFinalizeCount := 0, afterDispatchCount := 0, warnings := [],
    execTrace := [], resumeLog := [] }

/-- A component whose `execute` succeeds and does nothing. -/
def okAction : Component := .mk "ok" "ok" true .nil

/-- A component whose `execute` does nothing and returns failure. -/
def failAction : Component := .mk "bad" "bad" false .nil

/-- A component that executes `okAction` as a sub-component. -/
def outerAction : Component := .mk "outer" "outer" true (.cons (.exec okAction) .nil)

/-- A component that records one error message and succeeds. -/
def errAction : Component := .mk "err" "err" true (.cons (.errorOp "second") .nil)

/-- A component that calls `detachAsync` (suspends again) and succeeds. -/
def suspendAction : Component := .mk "susp" "susp" true (.cons .detachAsyncOp .nil)

/-- A concrete environment for URI claims. -/
def envW : UriEnv :=
  { requestUri := { authority := "http://example.com", path := "/cur", query := none },
    controllerNs := "blog/posts",
    currentAction := { numberOfCaptures := 0 } }

/-- A concrete resolver for the C10 witness: every action expands to one
required capture and resolves to the path `/item/<captures>`. -/
def dW : Dispatcher :=
  { expandAction := fun _ => { numberOfCaptures := 1 },
    uriForAction := fun _ cs => "/item/" ++ String.intercalate "/" cs }

/-- A suspended context with two pending actions that both succeed. -/
def cW : Ctx :=
  { baseCtx with
      asyncDetached := 1
      statusAsync := true
      pendingAsync := [okAction, okAction] }

/-- A suspended context whose first pending action fails. -/
def cB : Ctx :=
  { baseCtx with
      asyncDetached := 1
      statusAsync := true
      pendingAsync := [failAction, okAction] }

/-- A suspended context whose first pending action re-detaches. -/
def cS : Ctx :=
  { baseCtx with
      asyncDetached := 1
      statusAsync := true
      pendingAsync := [suspendAction, okAction] }

/-! ### Field-preservation lemmas for the non-recursive operations -/

@[simp] theorem ctxError_pendingAsync (c : Ctx) (msg : String) :
    (ctxError c msg).pendingAsync = c.pendingAsync := by
  unfold ctxError; split <;> rfl

@[simp] theorem ctxError_asyncAction (c : Ctx) (msg : String) :
    (ctxError c msg).asyncAction = c.asyncAction := by
  unfold ctxError; split <;> rfl

@[simp] theorem ctxError_resumeLog (c : Ctx) (msg : String) :
    (ctxError c msg).resumeLog = c.resumeLog := by
  unfold ctxError; split <;> rfl

@[simp] theorem ctxError_stack (c : Ctx) (msg : String) :
    (ctxError c msg).stack = c.stack := by
  unfold ctxError; split <;> rfl

@[simp] theorem finalize_pendingAsync (c : Ctx) :
    (finalize c).pendingAsync = c.pendingAsync := by
  unfold finalize engineFinalize; split <;> [rfl; split <;> rfl]

@[simp] theorem finalize_asyncAction (c : Ctx) :
    (finalize c).asyncAction = c.asyncAction := by
  unfold finalize engineFinalize; split <;> [rfl; split <;> rfl]

@[simp] theorem finalize_resumeLog (c : Ctx) :
    (finalize c).resumeLog = c.resumeLog := by
  unfold finalize engineFinalize; split <;> [rfl; split <;> rfl]

@[simp] theorem finalize_stack (c : Ctx) :
    (finalize c).stack = c.stack := by
  unfold finalize engineFinalize; split <;> [rfl; split <;> rfl]

@[simp] theorem finalize_error (c : Ctx) :
    (finalize c).error = c.error := by
  unfold finalize engineFinalize; split <;> [rfl; split <;> rfl]

theorem stepInv_of_eq {c c' : Ctx}
    (h1 : c'.pendingAsync = c.pendingAsync) (h2 : c'.asyncAction = c.asyncAction)
    (h3 : c'.resumeLog = c.resumeLog) (h4 : c'.stack = c.stack) :
    stepInv c c' := by
  refine ⟨h1, h2.ge, ?_, h4⟩
  simp [h2, h3]

theorem stepInv_rfl (c : Ctx) : stepInv c c :=
  stepInv_of_eq rfl rfl rfl rfl

theorem stepInv_trans {a b c : Ctx} (h1 : stepInv a b) (h2 : stepInv b c) :
    stepInv a c := by
  obtain ⟨p1, m1, l1, s1⟩ := h1
  obtain ⟨p2, m2, l2, s2⟩ := h2
  refine ⟨p2.trans p1, m1.trans m2, ?_, s2.trans s1⟩
  rw [l2, l1, p1, List.append_assoc, ← List.map_append]
  congr 2
  have hb : b.asyncAction = a.asyncAction + (b.asyncAction - a.asyncAction) := by omega
  calc List.range' a.asyncAction (b.asyncAction - a.asyncAction) ++
        List.range' b.asyncAction (c.asyncAction - b.asyncAction)
      = List.range' a.asyncAction (b.asyncAction - a.asyncAction) ++
        List.range' (a.asyncAction + (b.asyncAction - a.asyncAction))
          (c.asyncAction - b.asyncAction) := by rw [← hb]
    _ = List.range' a.asyncAction
          ((c.asyncAction - b.asyncAction) + (b.asyncAction - a.asyncAction)) :=
        List.range'_append_1 _ _ _
    _ = List.range' a.asyncAction (c.asyncAction - a.asyncAction) := by
        congr 1; omega

/-- Every completed run of any embedded operation satisfies `stepInv`:
proved for all five mutually recursive interpreter functions at once by
induction on the fuel. -/
theorem masterInv (fuel : Nat) :
    (∀ c code out, execute fuel c code = some out → stepInv c out.1) ∧
    (∀ c p c', runProg fuel c p = some c' → stepInv c c') ∧
    (∀ c op c', applyOp fuel c op = some c' → stepInv c c') ∧
    (∀ c c', attachAsync fuel c = some c' → stepInv c c') ∧
    (∀ c out, resumeLoop fuel c = some out → stepInv c out.1) := by
  induction fuel with
  | zero =>
    refine ⟨?_, ?_, ?_, ?_, ?_⟩
    · intro c code out h; simp [execute] at h
    · intro c p c' h; simp [runProg] at h
    · intro c op c' h; simp [applyOp] at h
    · intro c c' h; simp [attachAsync] at h
    · intro c out h; simp [resumeLoop] at h
  | succ n ih =>
    obtain ⟨ihE, ihP, ihO, ihA, ihR⟩ := ih
    refine ⟨?_, ?_, ?_, ?_, ?_⟩
    · -- execute
      intro c code out h
      simp only [execute] at h
      split at h
      · cases h
        exact stepInv_of_eq (by simp [setStateF]) (by simp [setStateF])
          (by simp [setStateF]) (by simp [setStateF])
      · rw [Option.map_eq_some'] at h
        obtain ⟨c2, hrun, hout⟩ := h
        obtain ⟨hpa, hmono, hlog, hstk⟩ := ihP _ _ _ hrun
        subst hout
        simp only at hpa hmono hlog hstk ⊢
        refine ⟨by simp_all, by simpa using hmono, ?_, by simp [hstk]⟩
        simpa using hlog
    · -- runProg
      intro c p c' h
      cases p with
      | nil => simp only [runProg] at h; cases h; exact stepInv_rfl _
      | cons op rest =>
        simp only [runProg, Option.bind_eq_some] at h
        obtain ⟨c1, h1, h2⟩ := h
        exact stepInv_trans (ihO _ _ _ h1) (ihP _ _ _ h2)
    · -- applyOp
      intro c op c' h
      cases op with
      | exec comp =>
        simp only [applyOp, Option.map_eq_some'] at h
        obtain ⟨o1, hex, hval⟩ := h
        subst hval
        exact ihE _ _ _ hex
      | errorOp msg =>
        simp only [applyOp] at h; cases h
        exact stepInv_of_eq (by simp) (by simp) (by simp) (by simp)
      | setStateOp b =>
        simp only [applyOp] at h; cases h
        exact stepInv_of_eq rfl rfl rfl rfl
      | finalizeOp =>
        simp only [applyOp] at h; cases h
        exact stepInv_of_eq (by simp) (by simp) (by simp) (by simp)
      | detachAsyncOp =>
        simp only [applyOp] at h; cases h
        exact stepInv_of_eq (by simp [detachAsync]) (by simp [detachAsync])
          (by simp [detachAsync]) (by simp [detachAsync])
      | attachAsyncOp =>
        simp only [applyOp] at h
        exact ihA _ _ h
      | detachNoneOp =>
        simp only [applyOp] at h; cases h
        exact stepInv_of_eq rfl rfl rfl rfl
      | detachToOp comp =>
        simp only [applyOp, Option.map_eq_some'] at h
        obtain ⟨o1, hex, hval⟩ := h
        subst hval
        exact ihE _ _ _ hex
    · -- attachAsync
      intro c c' h
      simp only [attachAsync] at h
      have hdec : stepInv c { c with asyncDetached := c.asyncDetached - 1 } :=
        stepInv_of_eq rfl rfl rfl rfl
      split at h
      · cases h; exact hdec
      · split at h
        · cases h
          exact stepInv_of_eq rfl rfl rfl rfl
        · rw [Option.map_eq_some'] at h
          obtain ⟨out, hloop, hval⟩ := h
          have h1 : stepInv c out.1 := stepInv_trans hdec (ihR _ _ hloop)
          subst hval
          split
          · exact h1
          · split
            · exact stepInv_trans h1
                (stepInv_of_eq (by simp) (by simp) (by simp) (by simp))
            · exact h1
    · -- resumeLoop
      intro c out h
      simp only [resumeLoop] at h
      split at h
      · rw [Option.bind_eq_some] at h
        obtain ⟨o1, hex, hrest⟩ := h
        have h01 : stepInv c (resumeEnter c) := by
          refine ⟨rfl, Nat.le_succ _, ?_, rfl⟩
          simp [resumeEnter]
        have h12 : stepInv c o1.1 := stepInv_trans h01 (ihE _ _ _ hex)
        split at hrest
        · split at hrest
          · cases hrest; exact h12
          · exact stepInv_trans h12 (ihR _ _ hrest)
        · cases hrest; exact h12
      · cases h; exact stepInv_rfl _

/-! ### Error-list preservation -/

/-- The deep-recursion message is never the empty string, so recording
it always appends (it can never hit the clearing branch of
`Context::error`). -/
theorem recursionMsg_ne_empty (n : Nat) (code : Component) : recursionMsg n code ≠ "" := by
  intro h
  have h2 := congrArg String.length h
  simp only [recursionMsg, String.length_append] at h2
  have h3 : 0 < ("Deep recursion detected (stack size " : String).length := by decide
  have h0 : ("" : String).length = 0 := rfl
  omega

theorem ctxError_error_of_ne (c : Ctx) {msg : String} (h : msg ≠ "") :
    (ctxError c msg).error = c.error ++ [msg] := by
  simp [ctxError, h]

theorem Component.okErr_body {code : Component} (h : code.okErr = true) :
    code.body.okErr = true := by
  cases code with
  | mk n r b p => exact h

theorem pendingOk_of_eq {c c' : Ctx} (hpa : c'.pendingAsync = c.pendingAsync)
    (h : pendingOk c) : pendingOk c' := by
  intro a ha
  exact h a (hpa ▸ ha)

/-- Once recorded, error messages are preserved in order (the old list
stays a prefix of the new one) by any completed run of the interpreter,
provided no component involved calls `error` with an empty argument. -/
theorem errPres (fuel : Nat) :
    (∀ c code out, pendingOk c → code.okErr = true → execute fuel c code = some out →
      c.error <+: out.1.error) ∧
    (∀ c p c', pendingOk c → p.okErr = true → runProg fuel c p = some c' →
      c.error <+: c'.error) ∧
    (∀ c op c', pendingOk c → op.okErr = true → applyOp fuel c op = some c' →
      c.error <+: c'.error) ∧
    (∀ c c', pendingOk c → attachAsync fuel c = some c' → c.error <+: c'.error) ∧
    (∀ c out, pendingOk c → resumeLoop fuel c = some out → c.error <+: out.1.error) := by
  induction fuel with
  | zero =>
    refine ⟨?_, ?_, ?_, ?_, ?_⟩
    · intro c code out _ _ h; simp [execute] at h
    · intro c p c' _ _ h; simp [runProg] at h
    · intro c op c' _ _ h; simp [applyOp] at h
    · intro c c' _ h; simp [attachAsync] at h
    · intro c out _ h; simp [resumeLoop] at h
  | succ n ih =>
    obtain ⟨ihE, ihP, ihO, ihA, ihR⟩ := ih
    refine ⟨?_, ?_, ?_, ?_, ?_⟩
    · -- execute
      intro c code out hp hok h
      simp only [execute] at h
      split at h
      · cases h
        simp only [setStateF, ctxError_error_of_ne _ (recursionMsg_ne_empty _ _)]
        exact List.prefix_append _ _
      · rw [Option.map_eq_some'] at h
        obtain ⟨c2, hrun, hout⟩ := h
        have hp1 : pendingOk
            { c with stack := code :: c.stack, execTrace := c.execTrace ++ [code] } := hp
        have hpre := ihP _ _ _ hp1 (Component.okErr_body hok) hrun
        subst hout
        simpa using hpre
    · -- runProg
      intro c p c' hp hok h
      cases p with
      | nil => simp only [runProg] at h; cases h; exact List.prefix_rfl
      | cons op rest =>
        simp only [runProg, Option.bind_eq_some] at h
        obtain ⟨c1, h1, h2⟩ := h
        simp only [Prog.okErr, Bool.and_eq_true] at hok
        have hpa1 := ((masterInv n).2.2.1 _ _ _ h1).1
        exact (ihO _ _ _ hp hok.1 h1).trans
          (ihP _ _ _ (pendingOk_of_eq hpa1 hp) hok.2 h2)
    · -- applyOp
      intro c op c' hp hok h
      cases op with
      | exec comp =>
        simp only [applyOp, Option.map_eq_some'] at h
        obtain ⟨o1, hex, hval⟩ := h
        subst hval
        exact ihE _ _ _ hp hok hex
      | errorOp msg =>
        simp only [applyOp] at h; cases h
        simp only [Op.okErr, bne_iff_ne, ne_eq] at hok
        rw [ctxError_error_of_ne _ hok]
        exact List.prefix_append _ _
      | setStateOp b =>
        simp only [applyOp] at h; cases h
        exact List.prefix_rfl
      | finalizeOp =>
        simp only [applyOp] at h; cases h
        simp
      | detachAsyncOp =>
        simp only [applyOp] at h; cases h
        exact List.prefix_rfl
      | attachAsyncOp =>
        simp only [applyOp] at h
        exact ihA _ _ hp h
      | detachNoneOp =>
        simp only [applyOp] at h; cases h
        exact List.prefix_rfl
      | detachToOp comp =>
        simp only [applyOp, Option.map_eq_some'] at h
        obtain ⟨o1, hex, hval⟩ := h
        subst hval
        exact ihE _ _ _ hp hok hex
    · -- attachAsync
      intro c c' hp h
      simp only [attachAsync] at h
      split at h
      · cases h; exact List.prefix_rfl
      · split at h
        · cases h; exact List.prefix_rfl
        · rw [Option.map_eq_some'] at h
          obtain ⟨out, hloop, hval⟩ := h
          have hp1 : pendingOk { c with asyncDetached := c.asyncDetached - 1 } := hp
          have hpre0 := ihR _ _ hp1 hloop
          have hpre : c.error <+: out.1.error := hpre0
          subst hval
          split
          · exact hpre
          · split
            · simpa using hpre
            · exact hpre
    · -- resumeLoop
      intro c out hp h
      simp only [resumeLoop] at h
      split at h
      · rename_i hlt
        rw [Option.bind_eq_some] at h
        obtain ⟨o1, hex, hrest⟩ := h
        have hmem : c.pendingAsync.getD c.asyncAction default ∈ c.pendingAsync := by
          rw [List.getD_eq_getElem _ _ hlt]
          exact List.getElem_mem hlt
        have hok := hp _ hmem
        have hp1 : pendingOk (resumeEnter c) := hp
        have hpre0 := ihE _ _ _ hp1 hok hex
        have hpre1 : c.error <+: o1.1.error := hpre0
        have hpa1 : o1.1.pendingAsync = c.pendingAsync :=
          ((masterInv n).1 _ _ _ hex).1
        split at hrest
        · split at hrest
          · cases hrest; exact hpre1
          · exact hpre1.trans (ihR _ _ (pendingOk_of_eq hpa1 hp) hrest)
        · cases hrest; exact hpre1
      · cases h; exact List.prefix_rfl

theorem buildQuery_eq_reverse (l : List (String × String)) :
    buildQuery l = l.reverse := by
  induction l with
  | nil => rfl
  | cons kv rest ih => simp [buildQuery, ih]

theorem moveCaptures_eq (n : Nat) (captures args : List String) :
    moveCaptures n captures args =
      (captures ++ args.take (n - captures.length),
       args.drop (n - captures.length)) := by
  induction args generalizing captures with
  | nil => simp [moveCaptures]
  | cons a rest ih =>
    rw [moveCaptures]
    by_cases h : captures.length < n
    · rw [if_pos h, ih]
      have hn : n - captures.length = (n - (captures.length + 1)) + 1 := by omega
      simp [hn, List.take_succ_cons, List.drop_succ_cons]
    · rw [if_neg h]
      have hn : n - captures.length = 0 := by omega
      simp [hn]

/-! ### Claims C2 - C5 -/

/-- C2: for every call to `attachAsync` made while `asyncDepth` is
greater than 1, the call only decrements `asyncDepth` and returns
immediately — no resumption of `pendingActions`, no finalization, and no
other observable state change (the result is the input context with
exactly the `asyncDetached` field decremented). -/
theorem C2_attachAsync_only_decrements (fuel : Nat) (c : Ctx)
    (h : 1 < c.asyncDetached) :
    attachAsync (fuel + 1) c = some { c with asyncDetached := c.asyncDetached - 1 } := by
  have hne : c.asyncDetached - 1 ≠ 0 := by omega
  simp [attachAsync, hne]

/-- C2 witness: at `asyncDepth = 2` the call yields `asyncDepth = 1` and
changes nothing else. -/
theorem C2_witness :
    (attachAsync 1 { baseCtx with asyncDetached := 2 }).map Ctx.asyncDetached
      = some 1 := by
  rw [C2_attachAsync_only_decrements 0 { baseCtx with asyncDetached := 2 } (by decide)]
  decide

/-- C3: when the stack depth has reached the configured recursion limit,
`execute(c)` appends exactly one message (naming the component's
canonical path and name and the current depth) to `errors`, sets `state`
to `false` and returns failure, leaving every other part of the context
— in particular the stack and the invocation trace — untouched. -/
theorem C3_execute_recursion_limit (fuel : Nat) (c : Ctx) (code : Component)
    (h : c.recursionLimit ≤ c.stack.length) :
    execute (fuel + 1) c code =
      some
        ({ c with
            error := c.error ++ [recursionMsg c.stack.length code]
            state := false },
          false) := by
  have hne := recursionMsg_ne_empty c.stack.length code
  simp [execute, h, setStateF, ctxError, hne]

/-- C3 witness: with the limit already reached, `execute` records the
error and fails without invoking the component. -/
theorem C3_witness :
    execute 1 { baseCtx with recursionLimit := 0 } okAction =
      some
        ({ baseCtx with
            recursionLimit := 0
            error := ["Deep recursion detected (stack size 0) calling ok, ok"]
            state := false },
          false) := by
  rw [C3_execute_recursion_limit 0 { baseCtx with recursionLimit := 0 } okAction
    (by decide)]
  rfl

/-- C4: every completed `execute` call, however deeply nested the calls
its component makes back into the context are, returns with the
execution stack exactly as it found it (push and pop are strictly
paired, also across failures and finalization). -/
theorem C4_execute_stack_balanced (fuel : Nat) (c : Ctx) (code : Component)
    (out : Ctx × Bool) (h : execute fuel c code = some out) :
    out.1.stack = c.stack :=
  ((masterInv fuel).1 _ _ _ h).2.2.2

/-- C4 witness: a component that itself executes a sub-component leaves
the stack as it found it. -/
theorem C4_witness :
    (execute 5 baseCtx outerAction).map (fun o => o.1.stack) = some baseCtx.stack := by
  have hs : (execute 5 baseCtx outerAction).isSome = true := by decide
  obtain ⟨out, hout⟩ := Option.isSome_iff_exists.mp hs
  rw [hout, Option.map_some']
  exact congrArg some (C4_execute_stack_balanced 5 baseCtx outerAction out hout)

/-- C5: the first `finalize` call hands the completed response to the
transport exactly once and marks the request finalized; any further
`finalize` call only appends the warning message and leaves every other
part of the context unchanged (a reported no-op, not an error). -/
theorem C5_finalize_once (c : Ctx) :
    (c.statusFinalized = false →
       (finalize c).engineFinalizeCount = c.engineFinalizeCount + 1 ∧
       (finalize c).statusFinalized = true ∧
       (finalize c).warnings = c.warnings ∧
       (finalize (finalize c)).engineFinalizeCount = c.engineFinalizeCount + 1 ∧
       finalize (finalize c) =
         { finalize c with warnings := (finalize c).warnings ++ [finalizeWarning] }) ∧
    (c.statusFinalized = true →
       finalize c = { c with warnings := c.warnings ++ [finalizeWarning] }) := by
  constructor
  · intro h
    by_cases hs : c.stats <;>
      simp [finalize, engineFinalize, h, hs]
  · intro h
    simp [finalize, h]

/-- C5 witness: finalizing a fresh context once hands off the response;
finalizing again only records the warning. -/
theorem C5_witness :
    (finalize baseCtx).engineFinalizeCount = 1 ∧
    (finalize baseCtx).statusFinalized = true ∧
    (finalize (finalize baseCtx)).engineFinalizeCount = 1 ∧
    (finalize (finalize baseCtx)).warnings = [finalizeWarning] := by
  obtain ⟨h1, h2, h3, h4, h5⟩ := (C5_finalize_once baseCtx).1 rfl
  refine ⟨h1, h2, h4, ?_⟩
  rw [h5]
  show (finalize baseCtx).warnings ++ [finalizeWarning] = [finalizeWarning]
  rw [h3]
  rfl

/-! ### Claims C6 - C8 -/

/-- C6 counterexample: with `asyncDepth = 0` and a queued pending
action, an unmatched `attachAsync` is accepted silently — it drives
`asyncDepth` to `-1` with no warning and no resumption — and a
subsequent properly matched `detachAsync`/`attachAsync` pair then also
runs nothing (the queue entry is never executed), so the call is neither
rejected nor clamped and it does corrupt the pending iteration. -/
theorem C6_counterexample :
    (attachAsync 9 { baseCtx with pendingAsync := [okAction] }).map Ctx.asyncDetached
      = some (-1) ∧
    (attachAsync 9 { baseCtx with pendingAsync := [okAction] }).map Ctx.warnings
      = some [] ∧
    (attachAsync 9 { baseCtx with pendingAsync := [okAction] }).map
      (fun c => c.resumeLog.map Prod.fst) = some [] ∧
    ((attachAsync 9 { baseCtx with pendingAsync := [okAction] }).bind
      (fun c1 => attachAsync 9 (detachAsync c1))).map
      (fun c => (c.asyncDetached, c.resumeLog.map Prod.fst, c.engineFinalizeCount))
      = some (-1, [], 0) := by
  refine ⟨?_, ?_, ?_, ?_⟩ <;> decide

/-- C6 (amended): calling `attachAsync` without a matching prior
`detachAsync` is accepted silently: it decrements `asyncDepth` from 0 to
-1 and returns immediately with no other state change, and a subsequent
matched `detachAsync`/`attachAsync` pair then only moves `asyncDepth`
back to -1 (setting the `Async` status bit) without ever resuming
`pendingActions` — the iteration state is corrupted rather than the call
being rejected or clamped. -/
theorem C6_amended (fuel : Nat) (c : Ctx) (h : c.asyncDetached = 0) :
    attachAsync (fuel + 1) c = some { c with asyncDetached := -1 } ∧
    attachAsync (fuel + 1) (detachAsync { c with asyncDetached := -1 }) =
      some { c with asyncDetached := -1, statusAsync := true } := by
  constructor
  · simp [attachAsync, h]
  · simp [attachAsync, detachAsync, h]

/-- C6 amended witness. -/
theorem C6_amended_witness :
    attachAsync 4 baseCtx = some { baseCtx with asyncDetached := -1 } ∧
    attachAsync 4 (detachAsync { baseCtx with asyncDetached := -1 }) =
      some { baseCtx with asyncDetached := -1, statusAsync := true } :=
  C6_amended 3 baseCtx rfl

/-- C7 counterexample: a message recorded through the `error` operation
is dropped by a later `error` call with an empty argument — the list is
cleared, so messages are not preserved under "further calls to the error
operation with any argument". -/
theorem C7_counterexample :
    errors (ctxError baseCtx "boom") = ["boom"] ∧
    errors (ctxError (ctxError baseCtx "boom") "") = [] := by
  constructor <;> decide

/-- C7 (amended): `error` with a non-empty message appends it, keeping
every earlier message in place and in order, and `errors()` returns the
stored list; every completed `execute` or `attachAsync` run whose
components never call `error` with an empty argument, as well as
`finalize`, `detachAsync` and `setState`, preserves the recorded
messages in order (the old list remains a prefix of the new one) — but
`error` with an empty argument clears the list. -/
theorem C7_amended :
    (∀ c msg, msg ≠ "" → errors (ctxError c msg) = errors c ++ [msg]) ∧
    (∀ c, errors (ctxError c "") = []) ∧
    (∀ fuel c code out, pendingOk c → code.okErr = true →
       execute fuel c code = some out → errors c <+: errors out.1) ∧
    (∀ fuel c c', pendingOk c → attachAsync fuel c = some c' →
       errors c <+: errors c') ∧
    (∀ c, errors (finalize c) = errors c) ∧
    (∀ c, errors (detachAsync c) = errors c) ∧
    (∀ c b, errors (setStateF c b) = errors c) := by
  refine ⟨?_, ?_, ?_, ?_, ?_, ?_, ?_⟩
  · intro c msg h
    simp [errors, ctxError, h]
  · intro c
    simp [errors, ctxError]
  · intro fuel c code out hp hok h
    exact (errPres fuel).1 _ _ _ hp hok h
  · intro fuel c c' hp h
    exact (errPres fuel).2.2.2.1 _ _ hp h
  · intro c
    simp [errors]
  · intro c
    simp [errors, detachAsync]
  · intro c b
    simp [errors, setStateF]

/-- C7 amended witness: a recorded message survives, in order, a
component run that appends another message. -/
theorem C7_amended_witness :
    errors (ctxError baseCtx "x") = ["x"] ∧
    (["first"] : List String) <+: ["first", "second"] := by
  obtain ⟨h1, -, h3, -⟩ := C7_amended
  constructor
  · simpa using h1 baseCtx "x" (by decide)
  · have hs : (execute 3 { baseCtx with error := ["first"] } errAction).isSome = true := by
      decide
    obtain ⟨out, hout⟩ := Option.isSome_iff_exists.mp hs
    have hpre := h3 3 { baseCtx with error := ["first"] } errAction out
      (by intro a ha; simp [baseCtx] at ha) (by decide) hout
    have he : (execute 3 { baseCtx with error := ["first"] } errAction).map
        (fun o => errors o.1) = some ["first", "second"] := by decide
    rw [hout, Option.map_some'] at he
    have he2 : errors out.1 = ["first", "second"] := by exact Option.some.inj he
    rwa [he2] at hpre

/-- C8 counterexample: `detach` with a non-null action forwards to the
action (its body is invoked) but does not leave the context detached:
the `detached` flag stays `false`, so `detach(action)` does not suppress
the remainder of the default chain the way `detach()` does. -/
theorem C8_counterexample :
    (detach 3 baseCtx (some okAction)).map Ctx.detached = some false ∧
    (detach 3 baseCtx (some okAction)).map
      (fun c => c.execTrace.map Component.name) = some ["ok"] := by
  constructor <;> decide

/-- C8 (amended): `detach(action)` with a non-null action is exactly
`forward(action)` — it asks the Resolver to run the target as part of
the current request cycle and discards the result — and it does not
itself set `detached` (a forwarded action with an empty body leaves the
flag unchanged); only `detach()` with no action sets `detached = true`. -/
theorem C8_amended (fuel : Nat) (c : Ctx) (a : Component) :
    detach fuel c (some a) = (forward fuel c a).map Prod.fst ∧
    detach fuel c none = some { c with detached := true } ∧
    (a.body = Prog.nil →
      ∀ out, forward (fuel + 2) c a = some out → out.1.detached = c.detached) := by
  refine ⟨rfl, rfl, ?_⟩
  intro hbody out h
  simp only [forward, dispForward, execute] at h
  split at h
  · cases h
    show (setStateF (ctxError c (recursionMsg c.stack.length a)) false).detached
      = c.detached
    simp only [setStateF]
    unfold ctxError
    split <;> rfl
  · rw [hbody] at h
    simp only [runProg] at h
    rw [Option.map_eq_some'] at h
    obtain ⟨c2, hrun, hval⟩ := h
    cases hrun
    subst hval
    rfl

/-- C8 amended witness. -/
theorem C8_amended_witness :
    detach 2 baseCtx (some okAction) = (forward 2 baseCtx okAction).map Prod.fst ∧
    detach 2 baseCtx none = some { baseCtx with detached := true } ∧
    (forward 2 baseCtx okAction).map (fun o => o.1.detached) = some false := by
  obtain ⟨h1, h2, -⟩ := C8_amended 2 baseCtx okAction
  obtain ⟨-, -, h3⟩ := C8_amended 0 baseCtx okAction
  refine ⟨h1, h2, ?_⟩
  have hs : (forward 2 baseCtx okAction).isSome = true := by decide
  obtain ⟨out, hout⟩ := Option.isSome_iff_exists.mp hs
  rw [hout, Option.map_some']
  exact congrArg some (h3 rfl out hout)

/-! ### Claims C9 - C10 -/

/-- C9 counterexample: `uriFor("/x", ["a","b"], {q:"1", r:"2"})` does
yield path `/x/a/b`, but its query presents the keys as `r=2&q=1` — the
reverse iteration over the key-sorted multimap emits distinct keys in
descending key order, not in the caller-provided order `q=1&r=2`. -/
theorem C9_counterexample :
    (uriFor envW "/x" ["a", "b"] (pmFromList [("q", "1"), ("r", "2")])).path
      = "/x/a/b" ∧
    (uriFor envW "/x" ["a", "b"] (pmFromList [("q", "1"), ("r", "2")])).query
      = some [("r", "2"), ("q", "1")] ∧
    some [("r", "2"), ("q", "1")] ≠ some [("q", "1"), ("r", "2")] := by
  refine ⟨?_, ?_, ?_⟩ <;> decide

/-- C9 (amended): `uriFor("/x", ["a","b"], queryParams)` returns a URI
with path `/x/a/b`; the query is built by iterating the multimap's
entries in reverse and therefore shows exactly the reversed multimap
order — values sharing a key (stored most-recent-first) come out in
insertion order, while distinct keys come out in descending key order,
so `{q:"1", r:"2"}` yields `r=2&q=1`, not `q=1&r=2` — and an empty
`queryParams` yields a URI with no query component at all. -/
theorem C9_amended (env : UriEnv) (qv : List (String × String)) :
    (uriFor env "/x" ["a", "b"] qv).path = "/x/a/b" ∧
    (uriFor env "/x" ["a", "b"] qv).query =
      (if qv.isEmpty then none else some qv.reverse) ∧
    (uriFor env "/x" ["a", "b"] []).query = none ∧
    (uriFor env "/x" ["a", "b"] (pmFromList [("q", "1"), ("r", "2")])).query
      = some [("r", "2"), ("q", "1")] ∧
    (uriFor env "/x" ["a", "b"] (pmFromList [("a", "1"), ("a", "2")])).query
      = some [("a", "1"), ("a", "2")] := by
  refine ⟨rfl, ?_, rfl, rfl, rfl⟩
  cases qv with
  | nil => rfl
  | cons kv rest =>
    show (if (buildQuery (kv :: rest)).isEmpty then none
          else some (buildQuery (kv :: rest)))
      = some (kv :: rest).reverse
    rw [buildQuery_eq_reverse]
    simp

/-- C10: in the `Action*` overload of `uriFor`, when the expanded target
action requires `n > 0` captures, leading `args` elements are moved into
`captures` until `captures` has `n` elements or `args` is exhausted, the
path is resolved from those captures, and the leftover `args` are
appended as trailing path arguments; with `captures = []` and
`args = ["10","extra"]` for an action requiring exactly one capture the
path is resolved with `captures = ["10"]` and `"extra"` trails; when the
required count is zero, `captures ++ args` become flat path arguments
and the captures list is cleared. -/
theorem C10_uriFor_action_captures (env : UriEnv) (d : Dispatcher) (a : Action)
    (captures args : List String) (qv : List (String × String)) :
    (0 < (d.expandAction (some a)).numberOfCaptures →
      uriForOnAction env d (some a) captures args qv =
        (if d.uriForAction a
              (captures ++
                args.take ((d.expandAction (some a)).numberOfCaptures - captures.length))
            = "" then emptyUrl
         else
           uriFor env
             (d.uriForAction a
               (captures ++
                 args.take ((d.expandAction (some a)).numberOfCaptures - captures.length)))
             (args.drop ((d.expandAction (some a)).numberOfCaptures - captures.length))
             qv)) ∧
    ((d.expandAction (some a)).numberOfCaptures = 0 →
      uriForOnAction env d (some a) captures args qv =
        (if d.uriForAction a [] = "" then emptyUrl
         else uriFor env (d.uriForAction a []) (captures ++ args) qv)) ∧
    ((d.expandAction (some a)).numberOfCaptures = 1 →
     captures = [] → args = ["10", "extra"] →
     d.uriForAction a ["10"] ≠ "" →
      uriForOnAction env d (some a) captures args qv =
        uriFor env (d.uriForAction a ["10"]) ["extra"] qv) := by
  refine ⟨?_, ?_, ?_⟩
  · intro hn
    simp only [uriForOnAction, Option.getD, moveCaptures_eq, if_pos hn]
  · intro hn
    simp only [uriForOnAction, Option.getD, hn]
    rfl
  · intro hn hc ha hpath
    subst hc
    subst ha
    simp only [uriForOnAction, Option.getD, moveCaptures_eq, hn, if_pos Nat.zero_lt_one]
    simp [hpath]

/-- C10 witness: with one required capture, `captures = []` and
`args = ["10","extra"]`, the URI is resolved from `captures = ["10"]`
with `"extra"` appended after the resolved path. -/
theorem C10_witness :
    uriForOnAction envW dW (some { numberOfCaptures := 1 }) [] ["10", "extra"] [] =
      uriFor envW "/item/10" ["extra"] [] ∧
    (uriForOnAction envW dW (some { numberOfCaptures := 1 }) [] ["10", "extra"] []).path
      = "/item/10/extra" := by
  obtain ⟨-, -, h3⟩ := C10_uriFor_action_captures envW dW
    { numberOfCaptures := 1 } [] ["10", "extra"] []
  have h := h3 rfl rfl rfl (by decide)
  constructor
  · exact h
  · rw [h]
    decide

/-! ### Claim C1 -/

/-- Unfolding helper: a matched `attachAsync` (the one bringing the
count from 1 to 0) on a not-yet-finalized request runs the pending loop
and post-processes its outcome (finalizing on fall-through when the
`Async` status bit is set). -/
theorem attachAsync_run (fuel : Nat) (c : Ctx) (hd : c.asyncDetached = 1)
    (hf : c.statusFinalized = false) :
    attachAsync (fuel + 1) c =
      (resumeLoop fuel { c with asyncDetached := 0 }).map fun out =>
        if out.2 then out.1
        else if out.1.statusAsync then
          finalize { out.1 with afterDispatchCount := out.1.afterDispatchCount + 1 }
        else out.1 := by
  simp [attachAsync, hd, hf]

/-- Unfolding helper: one iteration of the pending loop when the cursor
is inside the queue. -/
theorem resumeLoop_step (fuel : Nat) (c0 : Ctx)
    (hlt : c0.asyncAction < c0.pendingAsync.length) :
    resumeLoop (fuel + 1) c0 =
      (execute fuel (resumeEnter c0) (c0.pendingAsync.getD c0.asyncAction default)).bind
        fun out =>
          if out.2 then
            if out.1.asyncDetached ≠ 0 then some (out.1, true)
            else resumeLoop fuel out.1
          else some (out.1, false) := by
  simp only [resumeLoop, if_pos hlt]

/-- C1 (amended): when an `attachAsync` call brings `asyncDepth` to
exactly 0 on a not-yet-finalized context, the entries of
`pendingActions` are run in order starting at `nextPendingIndex`, each
exactly once, with the cursor advanced past each executed entry (the
resumption log gains exactly the consecutive cursor positions up to the
final cursor, each paired with the queue entry at that position, and the
queue itself is never modified).  If the first resumed action's
`execute` returns failure, iteration stops early but — unlike the claim
— the chain completion is signalled and the response IS finalized (the
transport `Async` bit having been set by `detachAsync`).  If the first
resumed action leaves a new detach count behind, control returns to the
caller immediately with exactly the state that action left: queue and
cursor preserved for a later `attachAsync`, and no finalization. -/
theorem C1_attachAsync_resume (fuel : Nat) (c : Ctx)
    (hd : c.asyncDetached = 1) (hf : c.statusFinalized = false) :
    (∀ c', attachAsync fuel c = some c' →
      c'.pendingAsync = c.pendingAsync ∧
      c.asyncAction ≤ c'.asyncAction ∧
      c'.resumeLog = c.resumeLog ++
        (List.range' c.asyncAction (c'.asyncAction - c.asyncAction)).map
          (fun k => (k, c.pendingAsync.getD k default))) ∧
    (∀ c2, c.asyncAction < c.pendingAsync.length →
      execute fuel (resumeEnter { c with asyncDetached := 0 })
          (c.pendingAsync.getD c.asyncAction default) = some (c2, false) →
      c2.statusAsync = true → c2.statusFinalized = false →
      attachAsync (fuel + 2) c =
        some (finalize { c2 with afterDispatchCount := c2.afterDispatchCount + 1 }) ∧
      (finalize { c2 with afterDispatchCount := c2.afterDispatchCount + 1
                }).engineFinalizeCount = c2.engineFinalizeCount + 1) ∧
    (∀ c2 r, c.asyncAction < c.pendingAsync.length →
      execute fuel (resumeEnter { c with asyncDetached := 0 })
          (c.pendingAsync.getD c.asyncAction default) = some (c2, r) →
      r = true → c2.asyncDetached ≠ 0 →
      attachAsync (fuel + 2) c = some c2) := by
  refine ⟨?_, ?_, ?_⟩
  · intro c' h
    obtain ⟨hpa, hmono, hlog, -⟩ := (masterInv fuel).2.2.2.1 _ _ h
    exact ⟨hpa, hmono, hlog⟩
  · intro c2 hlt hexec hasync hfin
    constructor
    · rw [attachAsync_run (fuel + 1) c hd hf,
        resumeLoop_step fuel { c with asyncDetached := 0 } hlt]
      rw [show (({ c with asyncDetached := 0 } : Ctx).pendingAsync.getD
            ({ c with asyncDetached := 0 } : Ctx).asyncAction default)
          = c.pendingAsync.getD c.asyncAction default from rfl]
      rw [hexec]
      simp [hasync]
    · simp [finalize, engineFinalize, hfin]
      split <;> rfl
  · intro c2 r hlt hexec hr hdet
    subst hr
    rw [attachAsync_run (fuel + 1) c hd hf,
      resumeLoop_step fuel { c with asyncDetached := 0 } hlt]
    rw [show (({ c with asyncDetached := 0 } : Ctx).pendingAsync.getD
          ({ c with asyncDetached := 0 } : Ctx).asyncAction default)
        = c.pendingAsync.getD c.asyncAction default from rfl]
    rw [hexec]
    simp [hdet]

/-- C1 counterexample: with pending actions `[failAction, okAction]`,
the matching `attachAsync` executes only the failing first entry
(cursor stops at 1, the second entry never runs) — but the response IS
finalized (`engineRequest->finalize()` ran once and the request is
marked finalized): after the `break` the code falls through to the
`EngineRequest::Async` check and finalizes, contradicting the claim
that a failing `execute` stops iteration "without finalizing". -/
theorem C1_counterexample :
    ((attachAsync 9 cB).map fun x =>
      (x.resumeLog.map Prod.fst, x.asyncAction, x.engineFinalizeCount,
        x.statusFinalized))
      = some ([0], 1, 1, true) := by
  decide

/-- C1 witness: the three behaviours at concrete inputs — both entries
of a two-action queue run in order exactly once; a failing first entry
stops iteration and finalizes; a re-detaching first entry returns
control with queue and cursor preserved and no finalization. -/
theorem C1_witness :
    ((attachAsync 9 cW).map fun x =>
      (x.pendingAsync.map Component.name, x.asyncAction, x.resumeLog.map Prod.fst))
      = some (["ok", "ok"], 2, [0, 1]) ∧
    (attachAsync 9 cB).map Ctx.engineFinalizeCount = some 1 ∧
    ((attachAsync 9 cS).map fun x =>
      (x.asyncDetached, x.asyncAction, x.engineFinalizeCount)) = some (1, 1, 0) := by
  refine ⟨?_, ?_, ?_⟩
  · have hs : (attachAsync 9 cW).isSome = true := by decide
    obtain ⟨c', h⟩ := Option.isSome_iff_exists.mp hs
    obtain ⟨hpa, -, hlog⟩ := (C1_attachAsync_resume 9 cW rfl rfl).1 c' h
    have ha : (attachAsync 9 cW).map Ctx.asyncAction = some 2 := by decide
    rw [h, Option.map_some'] at ha
    have ha2 : c'.asyncAction = 2 := Option.some.inj ha
    rw [h, Option.map_some', hpa, hlog, ha2]
    decide
  · have hs : (execute 7 (resumeEnter { cB with asyncDetached := 0 })
        (cB.pendingAsync.getD cB.asyncAction default)).isSome = true := by decide
    obtain ⟨out, hout⟩ := Option.isSome_iff_exists.mp hs
    have hsnd : out.2 = false := by
      have h2 : (execute 7 (resumeEnter { cB with asyncDetached := 0 })
          (cB.pendingAsync.getD cB.asyncAction default)).map Prod.snd
            = some false := by decide
      rw [hout, Option.map_some'] at h2
      exact Option.some.inj h2
    have hflds : (out.1.statusAsync, out.1.statusFinalized,
        out.1.engineFinalizeCount) = (true, false, 0) := by
      have h2 : (execute 7 (resumeEnter { cB with asyncDetached := 0 })
          (cB.pendingAsync.getD cB.asyncAction default)).map
            (fun o => (o.1.statusAsync, o.1.statusFinalized, o.1.engineFinalizeCount))
            = some (true, false, 0) := by decide
      rw [hout, Option.map_some'] at h2
      exact Option.some.inj h2
    have hexec : execute 7 (resumeEnter { cB with asyncDetached := 0 })
        (cB.pendingAsync.getD cB.asyncAction default) = some (out.1, false) := by
      rw [hout]
      exact congrArg some (Prod.ext rfl hsnd)
    obtain ⟨hb1, hb2⟩ := (C1_attachAsync_resume 7 cB rfl rfl).2.1 out.1
      (by decide) hexec (congrArg (fun t => t.1) hflds)
      (congrArg (fun t => t.2.1) hflds)
    have hb1' : attachAsync 9 cB =
        some (finalize { out.1 with afterDispatchCount := out.1.afterDispatchCount + 1 }) :=
      hb1
    have hcount : out.1.engineFinalizeCount = 0 := congrArg (fun t => t.2.2) hflds
    rw [hb1', Option.map_some', hb2, hcount]
  · have hs : (execute 7 (resumeEnter { cS with asyncDetached := 0 })
        (cS.pendingAsync.getD cS.asyncAction default)).isSome = true := by decide
    obtain ⟨out, hout⟩ := Option.isSome_iff_exists.mp hs
    have hsnd : out.2 = true := by
      have h2 : (execute 7 (resumeEnter { cS with asyncDetached := 0 })
          (cS.pendingAsync.getD cS.asyncAction default)).map Prod.snd
            = some true := by decide
      rw [hout, Option.map_some'] at h2
      exact Option.some.inj h2
    have hflds : (out.1.asyncDetached, out.1.asyncAction,
        out.1.engineFinalizeCount) = (1, 1, 0) := by
      have h2 : (execute 7 (resumeEnter { cS with asyncDetached := 0 })
          (cS.pendingAsync.getD cS.asyncAction default)).map
            (fun o => (o.1.asyncDetached, o.1.asyncAction, o.1.engineFinalizeCount))
            = some (1, 1, 0) := by decide
      rw [hout, Option.map_some'] at h2
      exact Option.some.inj h2
    have hexec : execute 7 (resumeEnter { cS with asyncDetached := 0 })
        (cS.pendingAsync.getD cS.asyncAction default) = some (out.1, out.2) := by
      rw [hout]
    have hdet : out.1.asyncDetached = 1 := congrArg (fun t => t.1) hflds
    have hc := (C1_attachAsync_resume 7 cS rfl rfl).2.2 out.1 out.2
      (by decide) hexec hsnd (by rw [hdet]; decide)
    have hc' : attachAsync 9 cS = some out.1 := hc
    rw [hc', Option.map_some']
    exact congrArg some hflds

end CutelystCtx
